import Mathlib

/-!
# A verification development for the Codenames game engine

Shallow embedding of the authoritative game-session engine:
* the data model (`src/types/game.ts`),
* the board generator and game-logic helpers (`src/lib/game-logic.ts`),
* the socket event handlers acting on a session (`src/lib/socket-handlers.ts`).

JavaScript numbers are modelled as `Int` (all the values involved are
integers); the one place the code deliberately stores `Infinity`
(`guessesRemaining`) is modelled by the two-constructor type `GuessCount`.
Randomness (`Math.random`) is modelled by an oracle `rand : Nat → Nat`;
at Fisher–Yates step `i` the random index `j = floor(random * (i+1))`
is modelled as `rand i % (i+1)`, which ranges over exactly the values
`0 … i` that `Math.random` can produce.
-/

set_option maxHeartbeats 1000000

namespace Codenames

/-- `type Language = 'en' | 'he'` from `src/types/game.ts`. -/
inductive Language where
  | en
  | he
deriving DecidableEq, Repr

/-- `type BoardSize = 'small' | 'standard' | 'large'`. -/
inductive BoardSize where
  | small
  | standard
  | large
deriving DecidableEq, Repr

/-- `BOARD_DIMENSIONS` from `src/types/game.ts`. -/
def BOARD_DIMENSIONS : BoardSize → Nat
  | .small => 4
  | .standard => 5
  | .large => 6

/-- `type TeamId = 'red' | 'blue' | 'green' | 'yellow'`. -/
inductive TeamId where
  | red
  | blue
  | green
  | yellow
deriving DecidableEq, Repr

instance : Inhabited TeamId := ⟨.red⟩

/-- `TEAM_ORDER` from `src/types/game.ts`. -/
def TEAM_ORDER : List TeamId := [.red, .blue, .green, .yellow]

/-- `type CardType = TeamId | 'neutral' | 'assassin'`. -/
inductive CardType where
  | team (t : TeamId)
  | neutral
  | assassin
deriving DecidableEq, Repr

instance : Inhabited CardType := ⟨.neutral⟩

/-- `teamCount: 2 | 3 | 4` — the union type of the `teamCount` setting. -/
inductive TeamCount where
  | two
  | three
  | four
deriving DecidableEq, Repr

def TeamCount.toNat : TeamCount → Nat
  | .two => 2
  | .three => 3
  | .four => 4

/-- `interface GameSettings` from `src/types/game.ts`. -/
structure GameSettings where
  boardSize : BoardSize
  teamCount : TeamCount
  wordsPerTeam : Int
  assassinCount : Int
  language : Language
deriving DecidableEq, Repr

/-- `interface Clue { word, count }`. -/
structure Clue where
  word : String
  count : Int
deriving DecidableEq, Repr

/-- `interface TeamScore { found, total }`. -/
structure TeamScore where
  found : Int
  total : Int
deriving DecidableEq, Repr

/-- `type PlayerRole = 'spymaster' | 'operative' | 'spectator'`. -/
inductive PlayerRole where
  | spymaster
  | operative
  | spectator
deriving DecidableEq, Repr

/-- `interface Player` from `src/types/game.ts`; `team`/`role` are nullable. -/
structure Player where
  id : String
  name : String
  team : Option TeamId
  role : Option PlayerRole
  isHost : Bool
deriving DecidableEq, Repr

/-- `status: 'lobby' | 'playing' | 'finished'`. -/
inductive GameStatus where
  | lobby
  | playing
  | finished
deriving DecidableEq, Repr

/-- The JavaScript number stored in `guessesRemaining`: either a finite
integer or the literal `Infinity` assigned by the `give_clue` handler. -/
inductive GuessCount where
  | inf
  | fin (n : Int)
deriving DecidableEq, Repr

/-- `game.guessesRemaining--`: `Infinity - 1 === Infinity` in JavaScript. -/
def GuessCount.dec : GuessCount → GuessCount
  | .inf => .inf
  | .fin n => .fin (n - 1)

/-- The test `game.guessesRemaining <= 0`: false for `Infinity`. -/
def GuessCount.le0 : GuessCount → Bool
  | .inf => false
  | .fin n => n ≤ 0

/-- `interface Game` from `src/types/game.ts`.  `scores` is a
`Record<TeamId, TeamScore>`, modelled as a total function. -/
structure Game where
  code : String
  hostId : String
  status : GameStatus
  settings : GameSettings
  words : List String
  keyCard : List CardType
  revealed : List Bool
  teams : List TeamId
  currentTeamIndex : Nat
  currentClue : Option Clue
  guessesRemaining : GuessCount
  guessesThisTurn : Int
  players : List Player
  scores : TeamId → TeamScore
  eliminatedTeams : List TeamId
  winner : Option TeamId
  createdAt : Int

/-- `Partial<GameSettings>` — an absent field leaves the old value. -/
structure SettingsPatch where
  boardSize : Option BoardSize
  teamCount : Option TeamCount
  wordsPerTeam : Option Int
  assassinCount : Option Int
  language : Option Language
deriving DecidableEq, Repr

/-- The spread `{ ...base, ...patch }` on settings objects. -/
def mergeSettings (base : GameSettings) (patch : SettingsPatch) : GameSettings :=
  { boardSize := patch.boardSize.getD base.boardSize
    teamCount := patch.teamCount.getD base.teamCount
    wordsPerTeam := patch.wordsPerTeam.getD base.wordsPerTeam
    assassinCount := patch.assassinCount.getD base.assassinCount
    language := patch.language.getD base.language }

/-- `getDefaultSettings` from `src/types/game.ts`. -/
def getDefaultSettings (boardSize : BoardSize := .standard)
    (teamCount : TeamCount := .two) (language : Language := .en) : GameSettings :=
  let wordsPerTeamDefaults : BoardSize → TeamCount → Int := fun bs tc =>
    match bs, tc with
    | .small, .two => 6
    | .small, .three => 4
    | .small, .four => 3
    | .standard, .two => 8
    | .standard, .three => 6
    | .standard, .four => 5
    | .large, .two => 12
    | .large, .three => 9
    | .large, .four => 7
  { boardSize := boardSize
    teamCount := teamCount
    wordsPerTeam := wordsPerTeamDefaults boardSize teamCount
    assassinCount := if boardSize = .large then 2 else 1
    language := language }

/-- `getNeutralCount` from `src/types/game.ts`. -/
def getNeutralCount (settings : GameSettings) : Int :=
  let totalCards : Int := ((BOARD_DIMENSIONS settings.boardSize) ^ 2 : Nat)
  let teamCards := settings.wordsPerTeam * (settings.teamCount.toNat : Int)
  let firstTeamBonus : Int := 1
  totalCards - teamCards - firstTeamBonus - settings.assassinCount

/-- `Array.prototype.map` with the element index (used by `forEach`/`map`
loops in the source); the first argument is the starting index. -/
def mapWithIndex (f : Nat → α → β) : Nat → List α → List β
  | _, [] => []
  | i, a :: as => f i a :: mapWithIndex f (i + 1) as

/-- The destructuring swap `[result[i], result[j]] = [result[j], result[i]]`. -/
def swapAt (l : List α) [Inhabited α] (i j : Nat) : List α :=
  (l.set i (l.getD j default)).set j (l.getD i default)

/-- The countdown loop of `shuffleArray`: `for (let i = n-1; i > 0; i--)`. -/
def shuffleGo [Inhabited α] (rand : Nat → Nat) : List α → Nat → List α
  | l, 0 => l
  | l, i + 1 => shuffleGo rand (swapAt l (i + 1) (rand (i + 1) % (i + 2))) i

/-- `shuffleArray` (Fisher–Yates) from `src/lib/game-logic.ts`, with the
random draws supplied by the oracle `rand`. -/
def shuffleArray [Inhabited α] (l : List α) (rand : Nat → Nat) : List α :=
  shuffleGo rand l (l.length - 1)

/-- The `teams.forEach` loop of `generateKeyCard`: team `index` pushes
`wordsPerTeam + (index === 0 ? 1 : 0)` copies of its colour. -/
def teamCardsList (teams : List TeamId) (wordsPerTeam : Int) : List CardType :=
  (mapWithIndex
    (fun index team =>
      List.replicate (wordsPerTeam + if index = 0 then 1 else 0).toNat (CardType.team team))
    0 teams).flatten

/-- `generateKeyCard` from `src/lib/game-logic.ts`.  The `while` loop that
pads with `neutral` until `totalCards` appends `totalCards - length` cards
(none when the distribution already overflows the board). -/
def generateKeyCard (settings : GameSettings) (rand : Nat → Nat) : List CardType :=
  let totalCards := (BOARD_DIMENSIONS settings.boardSize) ^ 2
  let teams := TEAM_ORDER.take settings.teamCount.toNat
  let cardTypes :=
    teamCardsList teams settings.wordsPerTeam
      ++ List.replicate settings.assassinCount.toNat CardType.assassin
  let filled := cardTypes ++ List.replicate (totalCards - cardTypes.length) CardType.neutral
  shuffleArray filled rand

/-- `initializeScores` from `src/lib/game-logic.ts`: every team starts at
`{found: 0, total: 0}`, then each active team's `total` is set to
`wordsPerTeam` (+1 for the first team). -/
def initializeScores (settings : GameSettings) : TeamId → TeamScore :=
  let teams := TEAM_ORDER.take settings.teamCount.toNat
  fun t =>
    match teams.findIdx? (· == t) with
    | some 0 => ⟨0, settings.wordsPerTeam + 1⟩
    | some _ => ⟨0, settings.wordsPerTeam⟩
    | none => ⟨0, 0⟩

/-- `createGame` from `src/lib/game-logic.ts`.  The random room code, the
`getRandomWords` result, the shuffle randomness and `Date.now()` are
oracle parameters.  The source object literal omits `guessesThisTurn`
(leaving it `undefined` at runtime); it is modelled as `0` — every read
in the handlers is preceded by an assignment in `give_clue`/turn advance. -/
def createGame (hostId : String) (settings : SettingsPatch) (code : String)
    (words : List String) (rand : Nat → Nat) (now : Int) : Game :=
  let fullSettings :=
    mergeSettings
      (getDefaultSettings (settings.boardSize.getD .standard) (settings.teamCount.getD .two))
      settings
  let totalCards := (BOARD_DIMENSIONS fullSettings.boardSize) ^ 2
  let teams := TEAM_ORDER.take fullSettings.teamCount.toNat
  { code := code
    hostId := hostId
    status := .lobby
    settings := fullSettings
    words := words
    keyCard := generateKeyCard fullSettings rand
    revealed := List.replicate totalCards false
    teams := teams
    currentTeamIndex := 0
    currentClue := none
    guessesRemaining := .fin 0
    guessesThisTurn := 0
    players := []
    scores := initializeScores fullSettings
    eliminatedTeams := []
    winner := none
    createdAt := now }

/-- `regenerateBoard` from `src/lib/game-logic.ts`: the spread `{...game}`
with fresh board/turn/score state.  Note the source does **not** list
`guessesThisTurn` among the overrides, so it carries over. -/
def regenerateBoard (game : Game) (words : List String) (rand : Nat → Nat) : Game :=
  let totalCards := (BOARD_DIMENSIONS game.settings.boardSize) ^ 2
  { game with
    words := words
    keyCard := generateKeyCard game.settings rand
    revealed := List.replicate totalCards false
    currentTeamIndex := 0
    currentClue := none
    guessesRemaining := .fin 0
    scores := initializeScores game.settings
    eliminatedTeams := []
    winner := none
    status := .lobby }

/-- `validateGameStart` from `src/lib/game-logic.ts` (returns
`{valid, error?}`; modelled as `Option String`, `none` = valid). -/
def validateGameStart (game : Game) : Option String :=
  if game.status ≠ .lobby then some "Game has already started"
  else
    let activeTeams := game.teams
    match activeTeams.find? (fun team =>
        ¬ game.players.any (fun p => p.team == some team && p.role == some .spymaster)) with
    | some team => some (reprStr team ++ " team needs a spymaster")
    | none =>
      match activeTeams.find? (fun team =>
          ¬ game.players.any (fun p => p.team == some team && p.role == some .operative)) with
      | some team => some (reprStr team ++ " team needs at least one operative")
      | none => none

/-! ## View projector (`toClientState` / `getStateForPlayer`) -/

/-- `ClientGameState` from `src/types/game.ts`; the `SpymasterGameState`
variant (the spread `{...toClientState(game), keyCard}`) is modelled by
the optional `keyCard` field, absent (`none`) in the plain client state. -/
structure ClientGameState where
  code : String
  hostId : String
  status : GameStatus
  settings : GameSettings
  words : List String
  revealed : List Bool
  revealedCards : List (Option CardType)
  teams : List TeamId
  currentTeamIndex : Nat
  currentClue : Option Clue
  guessesRemaining : GuessCount
  guessesThisTurn : Int
  players : List Player
  scores : TeamId → TeamScore
  eliminatedTeams : List TeamId
  winner : Option TeamId
  keyCard : Option (List CardType)

/-- `toClientState` from `src/lib/socket-handlers.ts`:
`revealedCards = keyCard.map((type, i) => revealed[i] ? type : null)`.
An out-of-range `revealed[i]` is `undefined`, hence falsy (`getD i false`). -/
def toClientState (game : Game) : ClientGameState :=
  { code := game.code
    hostId := game.hostId
    status := game.status
    settings := game.settings
    words := game.words
    revealed := game.revealed
    revealedCards :=
      mapWithIndex (fun i type => if game.revealed.getD i false then some type else none)
        0 game.keyCard
    teams := game.teams
    currentTeamIndex := game.currentTeamIndex
    currentClue := game.currentClue
    guessesRemaining := game.guessesRemaining
    guessesThisTurn := game.guessesThisTurn
    players := game.players
    scores := game.scores
    eliminatedTeams := game.eliminatedTeams
    winner := game.winner
    keyCard := none }

/-- `toSpymasterState`: `{ ...toClientState(game), keyCard: game.keyCard }`. -/
def toSpymasterState (game : Game) : ClientGameState :=
  { toClientState game with keyCard := some game.keyCard }

/-- `getStateForPlayer` from `src/lib/socket-handlers.ts`. -/
def getStateForPlayer (game : Game) (playerId : String) : ClientGameState :=
  match game.players.find? (fun p => p.id == playerId) with
  | some player =>
    if player.role == some .spymaster then toSpymasterState game else toClientState game
  | none => toClientState game

/-! ## Socket event handlers (`src/lib/socket-handlers.ts`)

Each handler is modelled as a function `Game → Game` on the persisted
session: every early `return` after `socket.emit('error', …)` (or a
thrown exception before `saveGame`) leaves the stored session unchanged,
so those paths return the input game. -/

instance : Inhabited Player := ⟨⟨"", "", none, none, false⟩⟩

/-- In-place mutation of the player found by `players.find(...)`:
update the first entry with the given id. -/
def updateFirst (f : Player → Player) (playerId : String) : List Player → List Player
  | [] => []
  | p :: ps => if p.id == playerId then f p :: ps else p :: updateFirst f playerId ps

/-- The `join_room` handler (the part that mutates the session): an
existing player gets its name refreshed, a new player is appended with no
team/role and becomes host iff the roster was empty. -/
def joinRoom (game : Game) (playerId playerName : String) : Game :=
  match game.players.find? (fun p => p.id == playerId) with
  | some _ =>
    { game with
      players := updateFirst (fun p => { p with name := playerName }) playerId game.players }
  | none =>
    { game with
      players :=
        game.players ++ [{ id := playerId, name := playerName, team := none, role := none,
                           isHost := game.players.isEmpty }] }

/-- The `leave_room` handler: splice the player out; if they were host and
players remain, `players[0].isHost = true`. -/
def leaveRoom (game : Game) (playerId : String) : Game :=
  match game.players.findIdx? (fun p => p.id == playerId) with
  | none => game
  | some i =>
    let player := game.players.getD i default
    let rest := game.players.eraseIdx i
    if player.isHost then
      match rest with
      | [] => { game with players := [] }
      | q :: qs => { game with players := { q with isHost := true } :: qs }
    else { game with players := rest }

/-- The `update_settings` handler: host-only, lobby-only, then
`settings = { ...settings, ...patch }`. -/
def updateSettings (game : Game) (playerId : String) (patch : SettingsPatch) : Game :=
  match game.players.find? (fun p => p.id == playerId) with
  | none => game
  | some player =>
    if ¬ player.isHost then game
    else if game.status ≠ .lobby then game
    else { game with settings := mergeSettings game.settings patch }

/-- The `select_team` handler: spectators drop their team; a `spymaster`
request fails if another player already holds spymaster for that team;
otherwise the player's team/role are assigned. -/
def selectTeam (game : Game) (playerId : String) (team : Option TeamId)
    (role : Option PlayerRole) : Game :=
  match game.players.find? (fun p => p.id == playerId) with
  | none => game
  | some _ =>
    if role = some .spectator then
      { game with
        players :=
          updateFirst (fun p => { p with team := none, role := some .spectator }) playerId
            game.players }
    else if role = some .spymaster ∧ team.isSome then
      if game.players.any (fun p =>
          p.id != playerId && p.team == team && p.role == some .spymaster) then
        game
      else
        { game with
          players :=
            updateFirst (fun p => { p with team := team, role := role }) playerId game.players }
    else
      { game with
        players :=
          updateFirst (fun p => { p with team := team, role := role }) playerId game.players }

/-- The `start_game` handler: host-only, lobby-only; checks that every
team in `teams.slice(0, settings.teamCount)` has a spymaster — note it
does **not** check for operatives (unlike the unused `validateGameStart`). -/
def startGame (game : Game) (playerId : String) : Game :=
  match game.players.find? (fun p => p.id == playerId) with
  | none => game
  | some player =>
    if ¬ player.isHost then game
    else if game.status ≠ .lobby then game
    else
      let activeTeams := game.teams.take game.settings.teamCount.toNat
      if activeTeams.any (fun team =>
          ¬ game.players.any (fun p => p.team == some team && p.role == some .spymaster)) then
        game
      else { game with status := .playing }

/-- Whitespace for the JavaScript `String.prototype.trim`. -/
def isJsWhitespace (c : Char) : Bool :=
  c == ' ' || c == '\t' || c == '\n' || c == '\r' || c == '\x0b' || c == '\x0c'

/-- `data.word.trim()`. -/
def jsTrim (s : String) : String :=
  String.mk (((s.data.dropWhile isJsWhitespace).reverse.dropWhile isJsWhitespace).reverse)

/-- `.toUpperCase()` (character-wise upper-casing). -/
def jsToUpperCase (s : String) : String :=
  String.mk (s.data.map Char.toUpper)

/-- The `give_clue` handler: requires `status == playing`, the caller to be
the current team's spymaster and no active clue; rejects an empty trimmed
word or a negative count; then sets the clue, `guessesRemaining`
(`Infinity` for count 0, else `count + 1`) and `guessesThisTurn = 0`. -/
def giveClue (game : Game) (playerId word : String) (count : Int) : Game :=
  if game.status ≠ .playing then game
  else
    match game.players.find? (fun p => p.id == playerId) with
    | none => game
    | some player =>
      match game.teams.get? game.currentTeamIndex with
      | none => game
      | some currentTeam =>
        if player.team ≠ some currentTeam then game
        else if player.role ≠ some .spymaster then game
        else if game.currentClue.isSome then game
        else
          let clueWord := jsToUpperCase (jsTrim word)
          if clueWord = "" ∨ count < 0 then game
          else
            { game with
              currentClue := some { word := clueWord, count := count }
              guessesRemaining := if count = 0 then .inf else .fin (count + 1)
              guessesThisTurn := 0 }

/-- The do-while loop of `advanceToNextTeam`: step `currentTeamIndex`
circularly while it points at an eliminated team, at most
`teams.length` iterations in total. -/
def findNextIdx (teams elim : List TeamId) : Nat → Nat → Nat
  | i, attempts =>
    if h : elim.contains (teams.getD i default) ∧ attempts < teams.length then
      findNextIdx teams elim ((i + 1) % teams.length) (attempts + 1)
    else i
termination_by _i attempts => teams.length - attempts
decreasing_by obtain ⟨-, h2⟩ := h; omega

/-- `advanceToNextTeam` from `src/lib/socket-handlers.ts`. -/
def advanceToNextTeam (game : Game) : Game :=
  { game with
    currentClue := none
    guessesRemaining := .fin 0
    guessesThisTurn := 0
    currentTeamIndex :=
      findNextIdx game.teams game.eliminatedTeams
        ((game.currentTeamIndex + 1) % game.teams.length) 1 }

/-- The `guess_word` handler.  After the reveal, the card type decides:
assassin (eliminate, maybe finish, else advance), own colour (score,
maybe win, advance only when out of guesses), neutral (advance), another
team's colour (score for them, maybe they win, always advance).  A
`wordIndex` inside `words` but outside `keyCard` makes the JavaScript
fall into the last branch with `cardType === undefined` and throw on
`scores[undefined].found` before `saveGame`, so the session is unchanged. -/
def guessWord (game : Game) (playerId : String) (wordIndex : Int) : Game :=
  if game.status ≠ .playing then game
  else
    match game.players.find? (fun p => p.id == playerId) with
    | none => game
    | some player =>
      match game.teams.get? game.currentTeamIndex with
      | none => game
      | some currentTeam =>
        if player.team ≠ some currentTeam then game
        else if player.role ≠ some .operative then game
        else if game.currentClue = none then game
        else if wordIndex < 0 ∨ (game.words.length : Int) ≤ wordIndex then game
        else if game.revealed.getD wordIndex.toNat false then game
        else
          match game.keyCard.get? wordIndex.toNat with
          | none => game
          | some cardType =>
            let base :=
              { game with
                revealed := game.revealed.set wordIndex.toNat true
                guessesRemaining := game.guessesRemaining.dec
                guessesThisTurn := game.guessesThisTurn + 1 }
            match cardType with
            | .assassin =>
              let g2 := { base with eliminatedTeams := base.eliminatedTeams ++ [currentTeam] }
              let remainingTeams :=
                g2.teams.filter (fun t => ¬ g2.eliminatedTeams.contains t)
              if remainingTeams.length = 1 then
                { g2 with winner := some (remainingTeams.getD 0 default), status := .finished }
              else advanceToNextTeam g2
            | .neutral => advanceToNextTeam base
            | .team t =>
              if t = currentTeam then
                let sc := base.scores currentTeam
                let g2 :=
                  { base with
                    scores := fun x =>
                      if x = currentTeam then { sc with found := sc.found + 1 } else base.scores x }
                if sc.found + 1 ≥ sc.total then
                  { g2 with winner := some currentTeam, status := .finished }
                else if g2.guessesRemaining.le0 then advanceToNextTeam g2
                else g2
              else
                let sc := base.scores t
                let g2 :=
                  { base with
                    scores := fun x =>
                      if x = t then { sc with found := sc.found + 1 } else base.scores x }
                let g3 :=
                  if sc.found + 1 ≥ sc.total then
                    { g2 with winner := some t, status := .finished }
                  else g2
                advanceToNextTeam g3

/-- The `end_turn` handler: any member of the current team may pass. -/
def endTurn (game : Game) (playerId : String) : Game :=
  if game.status ≠ .playing then game
  else
    match game.players.find? (fun p => p.id == playerId) with
    | none => game
    | some player =>
      match game.teams.get? game.currentTeamIndex with
      | none => game
      | some currentTeam =>
        if player.team ≠ some currentTeam then game
        else advanceToNextTeam game

/-! ## The session-level step relation -/

/-- One client event, carrying the acting player id and its payload
(randomness for regeneration is an oracle parameter). -/
inductive Op where
  | joinRoom (playerId name : String)
  | leaveRoom (playerId : String)
  | updateSettings (playerId : String) (patch : SettingsPatch)
  | selectTeam (playerId : String) (team : Option TeamId) (role : Option PlayerRole)
  | startGame (playerId : String)
  | giveClue (playerId word : String) (count : Int)
  | guessWord (playerId : String) (wordIndex : Int)
  | endTurn (playerId : String)
  | regenerate (words : List String) (rand : Nat → Nat)

/-- Apply one event to the persisted session. -/
def applyOp : Op → Game → Game
  | .joinRoom pid name, g => joinRoom g pid name
  | .leaveRoom pid, g => leaveRoom g pid
  | .updateSettings pid patch, g => updateSettings g pid patch
  | .selectTeam pid team role, g => selectTeam g pid team role
  | .startGame pid, g => startGame g pid
  | .giveClue pid word count, g => giveClue g pid word count
  | .guessWord pid idx, g => guessWord g pid idx
  | .endTurn pid, g => endTurn g pid
  | .regenerate words rand, g => regenerateBoard g words rand

def applyOps (ops : List Op) (g : Game) : Game :=
  ops.foldl (fun s op => applyOp op s) g

/-- A freshly created session (`createGame` with arbitrary inputs). -/
def Initial (g : Game) : Prop :=
  ∃ hostId settings code words rand now, g = createGame hostId settings code words rand now

/-- Session states reachable from a fresh session by the engine's events. -/
def Reachable (g : Game) : Prop :=
  ∃ g0 ops, Initial g0 ∧ g = applyOps ops g0

/-! ## Basic lemmas about the embedded list operations -/

theorem mapWithIndex_length (f : Nat → α → β) (i : Nat) (l : List α) :
    (mapWithIndex f i l).length = l.length := by
  induction l generalizing i with
  | nil => rfl
  | cons a as ih => simp [mapWithIndex, ih]

theorem mapWithIndex_getD (f : Nat → α → β) (l : List α) (d : β) (e : α) :
    ∀ i j, j < l.length → (mapWithIndex f i l).getD j d = f (i + j) (l.getD j e) := by
  induction l with
  | nil => intro i j h; simp at h
  | cons a as ih =>
    intro i j h
    cases j with
    | zero => simp [mapWithIndex]
    | succ k =>
      simp only [mapWithIndex, List.getD_cons_succ]
      rw [ih (i + 1) k (by simpa using h)]
      congr 1
      omega

theorem getD_cons_set_perm [Inhabited α] :
    ∀ (l : List α) (j : Nat) (a : α), j < l.length →
      List.Perm (l.getD j default :: l.set j a) (a :: l) := by
  intro l
  induction l with
  | nil => intro j a h; simp at h
  | cons b t ih =>
    intro j a h
    cases j with
    | zero => simpa using List.Perm.swap a b t
    | succ k =>
      simp only [List.getD_cons_succ, List.set_cons_succ]
      exact ((List.Perm.swap b (t.getD k default) (t.set k a)).trans
        (((ih k a (by simpa using h)).cons b).trans (List.Perm.swap a b t)))

theorem swapAt_perm [Inhabited α] :
    ∀ (l : List α) (i j : Nat), i < l.length → j < l.length →
      List.Perm (swapAt l i j) l := by
  intro l
  induction l with
  | nil => intro i j hi; simp at hi
  | cons b t ih =>
    intro i j hi hj
    cases i with
    | zero =>
      cases j with
      | zero => simp [swapAt]
      | succ k =>
        simp only [swapAt, List.getD_cons_succ, List.getD_cons_zero, List.set_cons_zero,
          List.set_cons_succ]
        exact getD_cons_set_perm t k b (by simpa using hj)
    | succ m =>
      cases j with
      | zero =>
        simp only [swapAt, List.getD_cons_succ, List.getD_cons_zero, List.set_cons_zero,
          List.set_cons_succ]
        exact getD_cons_set_perm t m b (by simpa using hi)
      | succ k =>
        simp only [swapAt, List.getD_cons_succ, List.set_cons_succ]
        exact (ih m k (by simpa using hi) (by simpa using hj)).cons b

theorem swapAt_length [Inhabited α] (l : List α) (i j : Nat) :
    (swapAt l i j).length = l.length := by simp [swapAt]

theorem shuffleGo_perm [Inhabited α] (rand : Nat → Nat) :
    ∀ (n : Nat) (l : List α), n < l.length → List.Perm (shuffleGo rand l n) l := by
  intro n
  induction n with
  | zero => intro l _; exact List.Perm.refl l
  | succ m ih =>
    intro l h
    have hj : rand (m + 1) % (m + 2) < l.length := by
      have := Nat.mod_lt (rand (m + 1)) (y := m + 2) (by omega)
      omega
    have hswap : List.Perm (swapAt l (m + 1) (rand (m + 1) % (m + 2))) l :=
      swapAt_perm l _ _ h hj
    have hlen : m < (swapAt l (m + 1) (rand (m + 1) % (m + 2))).length := by
      rw [swapAt_length]; omega
    exact (ih _ hlen).trans hswap

/-- The Fisher–Yates shuffle only permutes its input. -/
theorem shuffleArray_perm [Inhabited α] (l : List α) (rand : Nat → Nat) :
    List.Perm (shuffleArray l rand) l := by
  unfold shuffleArray
  rcases l with - | ⟨a, t⟩
  · exact List.Perm.refl _
  · exact shuffleGo_perm rand _ _ (by simp)

/-! ## Lemmas about the turn-advance loop -/

/-- If some position reachable within the remaining attempt budget holds a
non-eliminated team, the loop stops on a non-eliminated team. -/
theorem findNextIdx_not_elim (teams elim : List TeamId) :
    ∀ fuel a i, teams.length - a ≤ fuel → i < teams.length →
      (∃ k, k ≤ teams.length - a ∧
        elim.contains (teams.getD ((i + k) % teams.length) default) = false) →
      elim.contains (teams.getD (findNextIdx teams elim i a) default) = false := by
  intro fuel
  induction fuel with
  | zero =>
    intro a i hf hi hex
    obtain ⟨k, hk, hco⟩ := hex
    have hk0 : k = 0 := by omega
    subst hk0
    rw [findNextIdx]
    split
    · next h =>
      rw [Nat.add_zero, Nat.mod_eq_of_lt hi] at hco
      exact Bool.noConfusion (h.1.symm.trans hco)
    · next h => rwa [Nat.add_zero, Nat.mod_eq_of_lt hi] at hco
  | succ m ih =>
    intro a i hf hi hex
    obtain ⟨k, hk, hco⟩ := hex
    rw [findNextIdx]
    split
    · next h =>
      have hlen : 0 < teams.length := by omega
      refine ih (a + 1) _ (by omega) (Nat.mod_lt _ hlen) ?_
      have hk0 : k ≠ 0 := by
        intro h0
        subst h0
        rw [Nat.add_zero, Nat.mod_eq_of_lt hi] at hco
        exact Bool.noConfusion (h.1.symm.trans hco)
      refine ⟨k - 1, by omega, ?_⟩
      have harith : ((i + 1) % teams.length + (k - 1)) % teams.length
          = (i + k) % teams.length := by
        rw [Nat.mod_add_mod]
        congr 1
        omega
      rwa [harith]
    · next h =>
      rcases Bool.eq_false_or_eq_true (elim.contains (teams.getD i default)) with hc | hc
      · have hna : ¬ a < teams.length := fun hlt => h ⟨hc, hlt⟩
        have hk0 : k = 0 := by omega
        subst hk0
        rwa [Nat.add_zero, Nat.mod_eq_of_lt hi] at hco
      · exact hc

/-- The loop result is the start index advanced by at most the remaining
attempt budget, circularly. -/
theorem findNextIdx_steps (teams elim : List TeamId) :
    ∀ fuel a i, teams.length - a ≤ fuel → i < teams.length →
      ∃ k, k ≤ teams.length - a ∧ findNextIdx teams elim i a = (i + k) % teams.length := by
  intro fuel
  induction fuel with
  | zero =>
    intro a i hf hi
    refine ⟨0, by omega, ?_⟩
    rw [findNextIdx]
    split
    · next h => exact absurd h.2 (by omega)
    · rw [Nat.add_zero, Nat.mod_eq_of_lt hi]
  | succ m ih =>
    intro a i hf hi
    rw [findNextIdx]
    split
    · next h =>
      have hlen : 0 < teams.length := by omega
      obtain ⟨k, hk, heq⟩ := ih (a + 1) ((i + 1) % teams.length) (by omega) (Nat.mod_lt _ hlen)
      refine ⟨k + 1, by omega, ?_⟩
      rw [heq, Nat.mod_add_mod]
      congr 1
      omega
    · next _ =>
      refine ⟨0, by omega, ?_⟩
      rw [Nat.add_zero, Nat.mod_eq_of_lt hi]

/-- The loop result stays inside the team list. -/
theorem findNextIdx_lt (teams elim : List TeamId) :
    ∀ fuel a i, teams.length - a ≤ fuel → i < teams.length →
      findNextIdx teams elim i a < teams.length := by
  intro fuel
  induction fuel with
  | zero =>
    intro a i hf hi
    rw [findNextIdx]
    split
    · next h => exact absurd h.2 (by omega)
    · exact hi
  | succ m ih =>
    intro a i hf hi
    rw [findNextIdx]
    split
    · next h => exact ih (a + 1) _ (by omega) (Nat.mod_lt _ (by omega))
    · exact hi

/-! ## C1: the role-scoped view projection -/

/-- The `player?.role === 'spymaster'` test of `getStateForPlayer`. -/
def requestingRoleIsSpymaster (game : Game) (playerId : String) : Bool :=
  match game.players.find? (fun p => p.id == playerId) with
  | some player => player.role == some .spymaster
  | none => false

/-- C1: for every session and requesting player id, the projected view's
`revealedCards` has one entry per key card entry, entry `i` being
`keyCard[i]` when `revealed[i]` and null otherwise; and the view carries
the full `keyCard` field exactly when the requesting player's role is
spymaster (any other requester gets no `keyCard`). -/
theorem projectView_spec (g : Game) (pid : String) :
    (getStateForPlayer g pid).revealedCards.length = g.keyCard.length ∧
    (∀ i, i < g.keyCard.length →
      (getStateForPlayer g pid).revealedCards.getD i none =
        if g.revealed.getD i false then some (g.keyCard.getD i default) else none) ∧
    ((getStateForPlayer g pid).keyCard = some g.keyCard ↔
      requestingRoleIsSpymaster g pid = true) ∧
    (requestingRoleIsSpymaster g pid = false → (getStateForPlayer g pid).keyCard = none) := by
  have hcards : (getStateForPlayer g pid).revealedCards
      = mapWithIndex (fun i type => if g.revealed.getD i false then some type else none)
          0 g.keyCard := by
    unfold getStateForPlayer
    split
    · split <;> rfl
    · rfl
  have hkey : (getStateForPlayer g pid).keyCard
      = if requestingRoleIsSpymaster g pid then some g.keyCard else none := by
    unfold getStateForPlayer requestingRoleIsSpymaster
    split
    · next p heq => split <;> rfl
    · next heq => rfl
  refine ⟨?_, ?_, ?_, ?_⟩
  · rw [hcards, mapWithIndex_length]
  · intro i hi
    rw [hcards, mapWithIndex_getD _ _ _ default 0 i hi]
    simp
  · rw [hkey]
    split <;> simp_all
  · intro hn
    rw [hkey, hn]
    simp

/-- A concrete session for exercising the view projection: one revealed
red card, one hidden blue card, a spymaster `s` and an operative `o`. -/
def gView : Game :=
  { code := "AAAAAA", hostId := "s", status := .playing,
    settings := getDefaultSettings, words := ["ALPHA", "BETA"],
    keyCard := [.team .red, .team .blue], revealed := [true, false],
    teams := [.red, .blue], currentTeamIndex := 0, currentClue := none,
    guessesRemaining := .fin 0, guessesThisTurn := 0,
    players := [⟨"s", "Spy", some .red, some .spymaster, true⟩,
                ⟨"o", "Op", some .red, some .operative, false⟩],
    scores := fun _ => ⟨0, 0⟩, eliminatedTeams := [], winner := none, createdAt := 0 }

/-- Witness for C1 at a concrete session: the revealed index shows its
card, the hidden index shows null, the spymaster gets the key card and
the operative does not. -/
theorem projectView_spec_witness :
    (getStateForPlayer gView "s").revealedCards.getD 0 none = some (.team .red) ∧
    (getStateForPlayer gView "s").revealedCards.getD 1 none = none ∧
    (getStateForPlayer gView "s").keyCard = some gView.keyCard ∧
    (getStateForPlayer gView "o").keyCard = none :=
  ⟨((projectView_spec gView "s").2.1 0 (by decide)).trans (by decide),
   ((projectView_spec gView "s").2.1 1 (by decide)).trans (by decide),
   (projectView_spec gView "s").2.2.1.mpr (by decide),
   (projectView_spec gView "o").2.2.2 (by decide)⟩

/-! ## C2/C3: the board generator's card distribution -/

theorem count_shuffle [Inhabited α] [DecidableEq α] (l : List α) (rand : Nat → Nat) (a : α) :
    (shuffleArray l rand).count a = l.count a :=
  (shuffleArray_perm l rand).count_eq a

theorem length_shuffle [Inhabited α] (l : List α) (rand : Nat → Nat) :
    (shuffleArray l rand).length = l.length :=
  (shuffleArray_perm l rand).length_eq

/-- C2: for settings whose implied neutral remainder is non-negative, the
generated key card has exactly dimension-squared entries; the first team
in turn order gets `wordsPerTeam + 1` of them, every other active team
`wordsPerTeam`, exactly `assassinCount` are assassins, and the rest are
neutral. -/
theorem generateKeyCard_distribution (s : GameSettings) (rand : Nat → Nat)
    (hw : 0 ≤ s.wordsPerTeam) (ha : 0 ≤ s.assassinCount)
    (hfit : s.wordsPerTeam * (s.teamCount.toNat : Int) + 1 + s.assassinCount
      ≤ ((BOARD_DIMENSIONS s.boardSize ^ 2 : Nat) : Int)) :
    (generateKeyCard s rand).length = BOARD_DIMENSIONS s.boardSize ^ 2 ∧
    (∀ i, i < s.teamCount.toNat →
      (((generateKeyCard s rand).count (.team (TEAM_ORDER.getD i default)) : Nat) : Int)
        = s.wordsPerTeam + if i = 0 then 1 else 0) ∧
    (((generateKeyCard s rand).count .assassin : Nat) : Int) = s.assassinCount ∧
    (((generateKeyCard s rand).count .neutral : Nat) : Int)
      = ((BOARD_DIMENSIONS s.boardSize ^ 2 : Nat) : Int)
        - (s.wordsPerTeam * (s.teamCount.toNat : Int) + 1 + s.assassinCount) := by
  rcases s with ⟨bs, tc, w, a, lang⟩
  simp only at hw ha hfit ⊢
  rcases tc with - | - | -
  · -- two teams
    simp only [TeamCount.toNat] at hfit ⊢
    unfold generateKeyCard
    simp only [TeamCount.toNat]
    have hteams : TEAM_ORDER.take 2 = [.red, .blue] := by decide
    rw [hteams]
    have hcards : teamCardsList [.red, .blue] w
        = List.replicate (w + 1).toNat (.team .red) ++ List.replicate w.toNat (.team .blue) := by
      simp [teamCardsList, mapWithIndex]
    rw [hcards]
    refine ⟨?_, ?_, ?_, ?_⟩
    · rw [length_shuffle]
      simp only [List.length_append, List.length_replicate]
      omega
    · intro i hi
      rcases i with - | - | i
      · rw [count_shuffle]
        simp [List.count_append, List.count_replicate, TEAM_ORDER]
        omega
      · rw [count_shuffle]
        simp [List.count_append, List.count_replicate, TEAM_ORDER]
        omega
      · omega
    · rw [count_shuffle]
      simp [List.count_append, List.count_replicate, TEAM_ORDER]
      omega
    · rw [count_shuffle]
      have hcount : ∀ m : Nat,
          (((List.replicate (w + 1).toNat (CardType.team .red)
            ++ List.replicate w.toNat (CardType.team .blue))
            ++ List.replicate a.toNat CardType.assassin)
            ++ List.replicate m CardType.neutral).count CardType.neutral = m := by
        intro m
        simp [List.count_append, List.count_replicate]
      rw [hcount]
      simp only [List.length_append, List.length_replicate]
      omega
  · -- three teams
    simp only [TeamCount.toNat] at hfit ⊢
    unfold generateKeyCard
    simp only [TeamCount.toNat]
    have hteams : TEAM_ORDER.take 3 = [.red, .blue, .green] := by decide
    rw [hteams]
    have hcards : teamCardsList [.red, .blue, .green] w
        = List.replicate (w + 1).toNat (.team .red)
          ++ (List.replicate w.toNat (.team .blue)
            ++ List.replicate w.toNat (.team .green)) := by
      simp [teamCardsList, mapWithIndex]
    rw [hcards]
    refine ⟨?_, ?_, ?_, ?_⟩
    · rw [length_shuffle]
      simp only [List.length_append, List.length_replicate]
      omega
    · intro i hi
      rcases i with - | - | - | i
      · rw [count_shuffle]
        simp [List.count_append, List.count_replicate, TEAM_ORDER]
        omega
      · rw [count_shuffle]
        simp [List.count_append, List.count_replicate, TEAM_ORDER]
        omega
      · rw [count_shuffle]
        simp [List.count_append, List.count_replicate, TEAM_ORDER]
        omega
      · omega
    · rw [count_shuffle]
      simp [List.count_append, List.count_replicate, TEAM_ORDER]
      omega
    · rw [count_shuffle]
      have hcount : ∀ m : Nat,
          (((List.replicate (w + 1).toNat (CardType.team .red)
            ++ (List.replicate w.toNat (CardType.team .blue)
              ++ List.replicate w.toNat (CardType.team .green)))
            ++ List.replicate a.toNat CardType.assassin)
            ++ List.replicate m CardType.neutral).count CardType.neutral = m := by
        intro m
        simp [List.count_append, List.count_replicate]
      rw [hcount]
      simp only [List.length_append, List.length_replicate]
      omega
  · -- four teams
    simp only [TeamCount.toNat] at hfit ⊢
    unfold generateKeyCard
    simp only [TeamCount.toNat]
    have hteams : TEAM_ORDER.take 4 = [.red, .blue, .green, .yellow] := by decide
    rw [hteams]
    have hcards : teamCardsList [.red, .blue, .green, .yellow] w
        = List.replicate (w + 1).toNat (.team .red)
          ++ (List.replicate w.toNat (.team .blue)
            ++ (List.replicate w.toNat (.team .green)
              ++ List.replicate w.toNat (.team .yellow))) := by
      simp [teamCardsList, mapWithIndex]
    rw [hcards]
    refine ⟨?_, ?_, ?_, ?_⟩
    · rw [length_shuffle]
      simp only [List.length_append, List.length_replicate]
      omega
    · intro i hi
      rcases i with - | - | - | - | i
      · rw [count_shuffle]
        simp [List.count_append, List.count_replicate, TEAM_ORDER]
        omega
      · rw [count_shuffle]
        simp [List.count_append, List.count_replicate, TEAM_ORDER]
        omega
      · rw [count_shuffle]
        simp [List.count_append, List.count_replicate, TEAM_ORDER]
        omega
      · rw [count_shuffle]
        simp [List.count_append, List.count_replicate, TEAM_ORDER]
        omega
      · omega
    · rw [count_shuffle]
      simp [List.count_append, List.count_replicate, TEAM_ORDER]
      omega
    · rw [count_shuffle]
      have hcount : ∀ m : Nat,
          (((List.replicate (w + 1).toNat (CardType.team .red)
            ++ (List.replicate w.toNat (CardType.team .blue)
              ++ (List.replicate w.toNat (CardType.team .green)
                ++ List.replicate w.toNat (CardType.team .yellow))))
            ++ List.replicate a.toNat CardType.assassin)
            ++ List.replicate m CardType.neutral).count CardType.neutral = m := by
        intro m
        simp [List.count_append, List.count_replicate]
      rw [hcount]
      simp only [List.length_append, List.length_replicate]
      omega

/-- The claim's example settings: standard board, 2 teams, 8 words per
team, 1 assassin. -/
def stdSettings : GameSettings :=
  { boardSize := .standard, teamCount := .two, wordsPerTeam := 8,
    assassinCount := 1, language := .en }

/-- Witness for C2 at the claim's example: 25 cards, 9 red, 8 blue,
1 assassin, 7 neutral. -/
theorem generateKeyCard_distribution_witness :
    (generateKeyCard stdSettings id).length = 25 ∧
    (generateKeyCard stdSettings id).count (.team .red) = 9 ∧
    (generateKeyCard stdSettings id).count (.team .blue) = 8 ∧
    (generateKeyCard stdSettings id).count .assassin = 1 ∧
    (generateKeyCard stdSettings id).count .neutral = 7 := by
  have h := generateKeyCard_distribution stdSettings id (by decide) (by decide) (by decide)
  have h0 := h.2.1 0 (by decide)
  have h1 := h.2.1 1 (by decide)
  have h2 := h.2.2.1
  have h3 := h.2.2.2
  simp [stdSettings, TEAM_ORDER, TeamCount.toNat, BOARD_DIMENSIONS] at h0 h1 h2 h3
  refine ⟨h.1.trans (by decide), ?_, ?_, ?_, ?_⟩ <;>
    simp only [stdSettings] <;> omega


/-- Settings whose implied neutral remainder is negative:
13·2 + 1 + 1 = 28 > 25 cards on a standard board. -/
def overfullSettings : GameSettings :=
  { boardSize := .standard, teamCount := .two, wordsPerTeam := 13,
    assassinCount := 1, language := .en }

/-- Counterexample to C3: the board generator has no fail-fast path.  On
settings whose neutral remainder is negative it still produces a key
card — an oversized one (28 entries on a 25-card board) with no
neutrals — rather than an `InvalidInput` error. -/
theorem generateKeyCard_no_failfast :
    getNeutralCount overfullSettings < 0 ∧
    (generateKeyCard overfullSettings id).length = 28 ∧
    (generateKeyCard overfullSettings id).count CardType.neutral = 0 := by decide

/-- C3 (amended): for settings whose team cards (with the first team's +1
bonus) plus assassins exceed dimension², board generation does not fail;
`generateKeyCard` returns a key card holding every team and assassin
card and no neutrals, whose length exceeds dimension². -/
theorem generateKeyCard_overfull (s : GameSettings) (rand : Nat → Nat)
    (hw : 0 ≤ s.wordsPerTeam) (ha : 0 ≤ s.assassinCount)
    (hover : ((BOARD_DIMENSIONS s.boardSize ^ 2 : Nat) : Int)
      < s.wordsPerTeam * (s.teamCount.toNat : Int) + 1 + s.assassinCount) :
    ((generateKeyCard s rand).length : Int)
      = s.wordsPerTeam * (s.teamCount.toNat : Int) + 1 + s.assassinCount ∧
    (generateKeyCard s rand).count CardType.neutral = 0 ∧
    BOARD_DIMENSIONS s.boardSize ^ 2 < (generateKeyCard s rand).length := by
  rcases s with ⟨bs, tc, w, a, lang⟩
  simp only at hw ha hover ⊢
  rcases tc with - | - | -
  · simp only [TeamCount.toNat] at hover ⊢
    unfold generateKeyCard
    simp only [TeamCount.toNat]
    have hteams : TEAM_ORDER.take 2 = [.red, .blue] := by decide
    rw [hteams]
    have hcards : teamCardsList [.red, .blue] w
        = List.replicate (w + 1).toNat (.team .red) ++ List.replicate w.toNat (.team .blue) := by
      simp [teamCardsList, mapWithIndex]
    rw [hcards]
    refine ⟨?_, ?_, ?_⟩
    · rw [length_shuffle]
      simp only [List.length_append, List.length_replicate]
      omega
    · rw [count_shuffle]
      have hcount : ∀ m : Nat,
          (((List.replicate (w + 1).toNat (CardType.team .red)
            ++ List.replicate w.toNat (CardType.team .blue))
            ++ List.replicate a.toNat CardType.assassin)
            ++ List.replicate m CardType.neutral).count CardType.neutral = m := by
        intro m
        simp [List.count_append, List.count_replicate]
      rw [hcount]
      simp only [List.length_append, List.length_replicate]
      omega
    · rw [length_shuffle]
      simp only [List.length_append, List.length_replicate]
      omega
  · simp only [TeamCount.toNat] at hover ⊢
    unfold generateKeyCard
    simp only [TeamCount.toNat]
    have hteams : TEAM_ORDER.take 3 = [.red, .blue, .green] := by decide
    rw [hteams]
    have hcards : teamCardsList [.red, .blue, .green] w
        = List.replicate (w + 1).toNat (.team .red)
          ++ (List.replicate w.toNat (.team .blue)
            ++ List.replicate w.toNat (.team .green)) := by
      simp [teamCardsList, mapWithIndex]
    rw [hcards]
    refine ⟨?_, ?_, ?_⟩
    · rw [length_shuffle]
      simp only [List.length_append, List.length_replicate]
      omega
    · rw [count_shuffle]
      have hcount : ∀ m : Nat,
          (((List.replicate (w + 1).toNat (CardType.team .red)
            ++ (List.replicate w.toNat (CardType.team .blue)
              ++ List.replicate w.toNat (CardType.team .green)))
            ++ List.replicate a.toNat CardType.assassin)
            ++ List.replicate m CardType.neutral).count CardType.neutral = m := by
        intro m
        simp [List.count_append, List.count_replicate]
      rw [hcount]
      simp only [List.length_append, List.length_replicate]
      omega
    · rw [length_shuffle]
      simp only [List.length_append, List.length_replicate]
      omega
  · simp only [TeamCount.toNat] at hover ⊢
    unfold generateKeyCard
    simp only [TeamCount.toNat]
    have hteams : TEAM_ORDER.take 4 = [.red, .blue, .green, .yellow] := by decide
    rw [hteams]
    have hcards : teamCardsList [.red, .blue, .green, .yellow] w
        = List.replicate (w + 1).toNat (.team .red)
          ++ (List.replicate w.toNat (.team .blue)
            ++ (List.replicate w.toNat (.team .green)
              ++ List.replicate w.toNat (.team .yellow))) := by
      simp [teamCardsList, mapWithIndex]
    rw [hcards]
    refine ⟨?_, ?_, ?_⟩
    · rw [length_shuffle]
      simp only [List.length_append, List.length_replicate]
      omega
    · rw [count_shuffle]
      have hcount : ∀ m : Nat,
          (((List.replicate (w + 1).toNat (CardType.team .red)
            ++ (List.replicate w.toNat (CardType.team .blue)
              ++ (List.replicate w.toNat (CardType.team .green)
                ++ List.replicate w.toNat (CardType.team .yellow))))
            ++ List.replicate a.toNat CardType.assassin)
            ++ List.replicate m CardType.neutral).count CardType.neutral = m := by
        intro m
        simp [List.count_append, List.count_replicate]
      rw [hcount]
      simp only [List.length_append, List.length_replicate]
      omega
    · rw [length_shuffle]
      simp only [List.length_append, List.length_replicate]
      omega

/-- Witness for the amended C3 at the concrete overfull settings. -/
theorem generateKeyCard_overfull_witness :
    ((generateKeyCard overfullSettings id).length : Int) = 28 ∧
    (generateKeyCard overfullSettings id).count CardType.neutral = 0 ∧
    BOARD_DIMENSIONS overfullSettings.boardSize ^ 2
      < (generateKeyCard overfullSettings id).length := by
  have h := generateKeyCard_overfull overfullSettings id (by decide) (by decide) (by decide)
  refine ⟨?_, h.2.1, h.2.2⟩
  have h1 := h.1
  simp only [overfullSettings, TeamCount.toNat] at h1 ⊢
  omega


/-! ## C4: starting the game -/

/-- The `!player?.isHost` test of the host-only handlers. -/
def isHostPlayer (g : Game) (pid : String) : Bool :=
  match g.players.find? (fun p => p.id == pid) with
  | some player => player.isHost
  | none => false

/-- C4 (amended): the `start_game` event succeeds exactly when the session
is in lobby, the caller is the host, and every active team has at least
one spymaster; on success only `status` changes (to `playing`, leaving
`currentTeamIndex` and everything else untouched), and any failed check
leaves the session unchanged.  The handler does **not** require
operatives. -/
theorem startGame_spec (g : Game) (pid : String) :
    ((isHostPlayer g pid = true ∧ g.status = .lobby ∧
      (∀ team ∈ g.teams.take g.settings.teamCount.toNat,
        ∃ p ∈ g.players, p.team = some team ∧ p.role = some .spymaster)) →
      startGame g pid = { g with status := .playing }) ∧
    (¬ (isHostPlayer g pid = true ∧ g.status = .lobby ∧
      (∀ team ∈ g.teams.take g.settings.teamCount.toNat,
        ∃ p ∈ g.players, p.team = some team ∧ p.role = some .spymaster)) →
      startGame g pid = g) := by
  constructor
  · rintro ⟨hhost, hlobby, hteams⟩
    unfold isHostPlayer at hhost
    unfold startGame
    cases hfind : g.players.find? (fun p => p.id == pid) with
    | none => rw [hfind] at hhost; exact absurd hhost (by simp)
    | some player =>
      rw [hfind] at hhost
      have hhost2 : player.isHost = true := hhost
      have hb : (g.teams.take g.settings.teamCount.toNat).any (fun team =>
          ¬ g.players.any (fun p => p.team == some team && p.role == some .spymaster)) = false := by
        rw [List.any_eq_false]
        intro team hmem
        obtain ⟨p, hp, hpt, hpr⟩ := hteams team hmem
        have hany : g.players.any (fun p => p.team == some team && p.role == some .spymaster)
            = true :=
          List.any_eq_true.mpr ⟨p, hp, by simp [hpt, hpr]⟩
        simp [hany]
      simp only [hhost2, hlobby, hb]
      simp
  · intro hn
    unfold startGame
    cases hfind : g.players.find? (fun p => p.id == pid) with
    | none => rfl
    | some player =>
      by_cases hh : player.isHost = true
      · by_cases hs : g.status = .lobby
        · cases hb : (g.teams.take g.settings.teamCount.toNat).any (fun team =>
              ¬ g.players.any (fun p => p.team == some team && p.role == some .spymaster)) with
          | true =>
            simp only [hh, hs, hb]
            simp
          | false =>
            exfalso
            apply hn
            refine ⟨by unfold isHostPlayer; rw [hfind]; exact hh, hs, fun team hmem => ?_⟩
            rw [List.any_eq_false] at hb
            have hpl : g.players.any
                (fun p => p.team == some team && p.role == some .spymaster) = true := by
              simpa using hb team hmem
            obtain ⟨p, hp, hpc⟩ := List.any_eq_true.mp hpl
            simp only [Bool.and_eq_true, beq_iff_eq] at hpc
            exact ⟨p, hp, hpc.1, hpc.2⟩
        · simp [hh, hs]
      · simp [hh]

/-- A lobby session whose two teams both have a spymaster and no
operative at all. -/
def gNoOps : Game :=
  { code := "CCCCCC", hostId := "h", status := .lobby, settings := getDefaultSettings,
    words := List.replicate 25 "w", keyCard := List.replicate 25 CardType.neutral,
    revealed := List.replicate 25 false, teams := [.red, .blue], currentTeamIndex := 0,
    currentClue := none, guessesRemaining := .fin 0, guessesThisTurn := 0,
    players := [⟨"h", "Host", some .red, some .spymaster, true⟩,
                ⟨"b", "Blue", some .blue, some .spymaster, false⟩],
    scores := fun _ => ⟨0, 0⟩, eliminatedTeams := [], winner := none, createdAt := 0 }

/-- Counterexample to C4: `start_game` never checks for operatives.  In a
lobby session where no team has any operative, the host's `start_game`
still succeeds and the session starts playing. -/
theorem startGame_no_operative_check :
    gNoOps.status = .lobby ∧
    (∀ team ∈ gNoOps.teams, ¬ ∃ p ∈ gNoOps.players,
      p.team = some team ∧ p.role = some PlayerRole.operative) ∧
    (startGame gNoOps "h").status = .playing := by decide

/-- Witness for the amended C4: the concrete operative-less session
starts successfully. -/
theorem startGame_spec_witness :
    startGame gNoOps "h" = { gNoOps with status := .playing } :=
  (startGame_spec gNoOps "h").1 (by decide)


/-! ## The session invariant (C5/C7/C10) -/

/-- The non-eliminated teams (`teams.filter(t => !eliminatedTeams.includes(t))`). -/
def remainingOf (g : Game) : List TeamId :=
  g.teams.filter (fun t => ¬ g.eliminatedTeams.contains t)

/-- The state invariant maintained by every session operation. -/
structure Inv (g : Game) : Prop where
  teams_len : 2 ≤ g.teams.length
  teams_nodup : g.teams.Nodup
  idx_lt : g.currentTeamIndex < g.teams.length
  cur_ok : g.status ≠ .finished →
    g.eliminatedTeams.contains (g.teams.getD g.currentTeamIndex default) = false
  rem_two : g.status ≠ .finished → 2 ≤ (remainingOf g).length
  winner_iff : g.winner ≠ none ↔ g.status = .finished
  lobby_clue : g.status = .lobby → g.currentClue = none
  clue_pos : g.status = .playing → g.currentClue ≠ none → g.guessesRemaining.le0 = false

/-- Transfer the invariant along equal "core" fields. -/
theorem Inv.of_fields {g g' : Game} (h : Inv g)
    (ht : g'.teams = g.teams) (hi : g'.currentTeamIndex = g.currentTeamIndex)
    (he : g'.eliminatedTeams = g.eliminatedTeams) (hs : g'.status = g.status)
    (hw : g'.winner = g.winner) (hc : g'.currentClue = g.currentClue)
    (hg : g'.guessesRemaining = g.guessesRemaining) : Inv g' := by
  have hrem : remainingOf g' = remainingOf g := by
    unfold remainingOf
    rw [ht, he]
  refine ⟨?_, ?_, ?_, ?_, ?_, ?_, ?_, ?_⟩
  · rw [ht]; exact h.teams_len
  · rw [ht]; exact h.teams_nodup
  · rw [ht, hi]; exact h.idx_lt
  · rw [hs, ht, hi, he]; exact h.cur_ok
  · rw [hs, hrem]; exact h.rem_two
  · rw [hw, hs]; exact h.winner_iff
  · rw [hs, hc]; exact h.lobby_clue
  · rw [hs, hc, hg]; exact h.clue_pos

/-! ### Preservation of the invariant by every operation -/

theorem inv_joinRoom {g : Game} (h : Inv g) (pid name : String) :
    Inv (joinRoom g pid name) := by
  unfold joinRoom
  split <;> exact h.of_fields rfl rfl rfl rfl rfl rfl rfl

theorem inv_leaveRoom {g : Game} (h : Inv g) (pid : String) :
    Inv (leaveRoom g pid) := by
  unfold leaveRoom
  split
  · exact h
  · dsimp only
    split
    · split
      · exact h.of_fields rfl rfl rfl rfl rfl rfl rfl
      · exact h.of_fields rfl rfl rfl rfl rfl rfl rfl
    · exact h.of_fields rfl rfl rfl rfl rfl rfl rfl

theorem inv_updateSettings {g : Game} (h : Inv g) (pid : String) (patch : SettingsPatch) :
    Inv (updateSettings g pid patch) := by
  unfold updateSettings
  split
  · exact h
  · split
    · exact h
    · split
      · exact h
      · exact h.of_fields rfl rfl rfl rfl rfl rfl rfl

theorem inv_selectTeam {g : Game} (h : Inv g) (pid : String) (team : Option TeamId)
    (role : Option PlayerRole) : Inv (selectTeam g pid team role) := by
  unfold selectTeam
  split
  · exact h
  · split
    · exact h.of_fields rfl rfl rfl rfl rfl rfl rfl
    · split
      · split
        · exact h
        · exact h.of_fields rfl rfl rfl rfl rfl rfl rfl
      · exact h.of_fields rfl rfl rfl rfl rfl rfl rfl

theorem inv_startGame {g : Game} (h : Inv g) (pid : String) : Inv (startGame g pid) := by
  unfold startGame
  split
  · exact h
  · split
    · exact h
    · split
      · exact h
      · next hs =>
        have hlob : g.status = .lobby := not_not.mp hs
        dsimp only
        split
        · exact h
        · refine ⟨h.teams_len, h.teams_nodup, h.idx_lt, ?_, ?_, ?_, ?_, ?_⟩
          · intro _
            exact h.cur_ok (by rw [hlob]; intro hcon; exact GameStatus.noConfusion hcon)
          · intro _
            exact h.rem_two (by rw [hlob]; intro hcon; exact GameStatus.noConfusion hcon)
          · constructor
            · intro hw
              have := h.winner_iff.mp hw
              rw [hlob] at this
              exact GameStatus.noConfusion this
            · intro hcon
              exact GameStatus.noConfusion hcon
          · intro hcon
            exact GameStatus.noConfusion hcon
          · intro _ hne
            exact absurd (h.lobby_clue hlob) hne

theorem inv_giveClue {g : Game} (h : Inv g) (pid word : String) (count : Int) :
    Inv (giveClue g pid word count) := by
  unfold giveClue
  split
  · exact h
  · next hst0 =>
    have hst : g.status = .playing := not_not.mp hst0
    split
    · exact h
    · split
      · exact h
      · split
        · exact h
        · split
          · exact h
          · split
            · exact h
            · dsimp only
              split
              · exact h
              · next hbad =>
                push_neg at hbad
                refine ⟨h.teams_len, h.teams_nodup, h.idx_lt, ?_, ?_, ?_, ?_, ?_⟩
                · intro _
                  exact h.cur_ok (by rw [hst]; intro hcon; exact GameStatus.noConfusion hcon)
                · intro _
                  exact h.rem_two (by rw [hst]; intro hcon; exact GameStatus.noConfusion hcon)
                · constructor
                  · intro hw
                    have hfin := h.winner_iff.mp hw
                    rw [hst] at hfin
                    exact GameStatus.noConfusion hfin
                  · intro hcon
                    rw [hst] at hcon
                    exact GameStatus.noConfusion hcon
                · intro hcon
                  rw [hst] at hcon
                  exact GameStatus.noConfusion hcon
                · intro _ _
                  split
                  · rfl
                  · simp only [GuessCount.le0, decide_eq_false_iff_not]
                    omega

theorem inv_advanceToNextTeam (g : Game)
    (hlen : 2 ≤ g.teams.length) (hnd : g.teams.Nodup)
    (hwi : g.winner ≠ none ↔ g.status = .finished)
    (hrem : g.status ≠ .finished → 2 ≤ (remainingOf g).length) :
    Inv (advanceToNextTeam g) := by
  have hlen0 : 0 < g.teams.length := by omega
  have hidx : (g.currentTeamIndex + 1) % g.teams.length < g.teams.length := Nat.mod_lt _ hlen0
  refine ⟨hlen, hnd, ?_, ?_, ?_, ?_, ?_, ?_⟩
  · exact findNextIdx_lt _ _ g.teams.length 1 _ (by omega) hidx
  · intro hf
    have h2 := hrem hf
    have hne : remainingOf g ≠ [] := by
      intro hcon
      rw [hcon] at h2
      simp at h2
    obtain ⟨t, htmem⟩ := List.exists_mem_of_ne_nil _ hne
    rw [remainingOf, List.mem_filter] at htmem
    obtain ⟨htteams, htp⟩ := htmem
    have htco : g.eliminatedTeams.contains t = false := by simpa using htp
    obtain ⟨j, hjlt, hjt⟩ := List.mem_iff_getElem.mp htteams
    have hcover : ∃ k, k ≤ g.teams.length - 1 ∧
        ((g.currentTeamIndex + 1) % g.teams.length + k) % g.teams.length = j := by
      by_cases hge : (g.currentTeamIndex + 1) % g.teams.length ≤ j
      · refine ⟨j - (g.currentTeamIndex + 1) % g.teams.length, by omega, ?_⟩
        have harith : (g.currentTeamIndex + 1) % g.teams.length
            + (j - (g.currentTeamIndex + 1) % g.teams.length) = j := by omega
        rw [harith, Nat.mod_eq_of_lt hjlt]
      · refine ⟨j + g.teams.length - (g.currentTeamIndex + 1) % g.teams.length, by omega, ?_⟩
        have harith : (g.currentTeamIndex + 1) % g.teams.length
            + (j + g.teams.length - (g.currentTeamIndex + 1) % g.teams.length)
            = j + g.teams.length := by omega
        rw [harith, Nat.add_mod_right, Nat.mod_eq_of_lt hjlt]
    obtain ⟨k, hk, hkj⟩ := hcover
    apply findNextIdx_not_elim _ _ g.teams.length 1 _ (by omega) hidx
    refine ⟨k, by omega, ?_⟩
    rw [hkj, List.getD_eq_getElem _ _ hjlt, hjt]
    exact htco
  · exact hrem
  · exact hwi
  · intro _
    rfl
  · intro _ hne
    exact absurd rfl hne

theorem inv_endTurn {g : Game} (h : Inv g) (pid : String) : Inv (endTurn g pid) := by
  unfold endTurn
  split
  · exact h
  · next hst0 =>
    have hst : g.status = .playing := not_not.mp hst0
    split
    · exact h
    · split
      · exact h
      · split
        · exact h
        · exact inv_advanceToNextTeam g h.teams_len h.teams_nodup h.winner_iff h.rem_two

theorem inv_regenerateBoard {g : Game} (h : Inv g) (ws : List String) (rand : Nat → Nat) :
    Inv (regenerateBoard g ws rand) := by
  refine ⟨h.teams_len, h.teams_nodup, ?_, ?_, ?_, ?_, ?_, ?_⟩
  · show 0 < g.teams.length
    have := h.teams_len
    omega
  · intro _
    rfl
  · intro _
    have hfil : remainingOf (regenerateBoard g ws rand) = g.teams := by
      unfold remainingOf regenerateBoard
      dsimp only
      apply List.filter_eq_self.mpr
      intro a _
      simp
    rw [hfil]
    exact h.teams_len
  · exact ⟨fun hw => absurd rfl hw, fun hcon => GameStatus.noConfusion hcon⟩
  · intro _
    rfl
  · intro hcon
    exact GameStatus.noConfusion hcon

theorem teamsTake_facts (tc : TeamCount) :
    2 ≤ (TEAM_ORDER.take tc.toNat).length ∧ (TEAM_ORDER.take tc.toNat).Nodup := by
  rcases tc with - | - | - <;> exact ⟨by decide, by decide⟩

theorem inv_createGame (hostId : String) (settings : SettingsPatch) (code : String)
    (words : List String) (rand : Nat → Nat) (now : Int) :
    Inv (createGame hostId settings code words rand now) := by
  unfold createGame
  dsimp only
  refine ⟨(teamsTake_facts _).1, (teamsTake_facts _).2, ?_, ?_, ?_, ?_, ?_, ?_⟩
  · exact lt_of_lt_of_le (show (0 : Nat) < 2 by omega) (teamsTake_facts _).1
  · intro _
    rfl
  · intro _
    have hfil : ∀ ts : List TeamId,
        ts.filter (fun t => ¬ ([] : List TeamId).contains t) = ts := by
      intro ts
      apply List.filter_eq_self.mpr
      intro a _
      simp
    show 2 ≤ (List.filter _ _).length
    rw [hfil]
    exact (teamsTake_facts _).1
  · simp
  · intro _
    rfl
  · intro hcon
    exact GameStatus.noConfusion hcon

theorem inv_guessWord {g : Game} (h : Inv g) (pid : String) (idx : Int) :
    Inv (guessWord g pid idx) := by
  unfold guessWord
  split
  · exact h
  · next hst0 =>
    have hst : g.status = .playing := not_not.mp hst0
    have hplay : g.status ≠ .finished := by
      rw [hst]
      intro hcon
      exact GameStatus.noConfusion hcon
    have hwnone : g.winner = none := by
      by_contra hw
      have hfin := h.winner_iff.mp hw
      rw [hst] at hfin
      exact GameStatus.noConfusion hfin
    have hwiff_playing : ∀ g' : Game, g'.winner = g.winner → g'.status = g.status →
        (g'.winner ≠ none ↔ g'.status = .finished) := by
      intro g' hw hs
      rw [hw, hs, hwnone, hst]
      exact ⟨fun hne => absurd rfl hne, fun hcon => GameStatus.noConfusion hcon⟩
    split
    · exact h
    · next player hfind =>
      split
      · exact h
      · next currentTeam hget =>
        have hcur_mem : currentTeam ∈ g.teams := List.get?_mem hget
        have hgetD : g.teams.getD g.currentTeamIndex default = currentTeam := by
          obtain ⟨hlt, hgeq⟩ := List.get?_eq_some.mp hget
          rw [List.getD_eq_getElem _ _ hlt]
          exact hgeq
        have hcur_ne : g.eliminatedTeams.contains currentTeam = false := by
          rw [← hgetD]
          exact h.cur_ok hplay
        split
        · exact h
        · split
          · exact h
          · split
            · exact h
            · split
              · exact h
              · split
                · exact h
                · split
                  · exact h
                  · next cardType hcard =>
                    dsimp only
                    split
                    · -- assassin
                      split
                      · -- only one team remains: finished
                        refine ⟨h.teams_len, h.teams_nodup, h.idx_lt, ?_, ?_, ?_, ?_, ?_⟩
                        · intro hf
                          exact absurd rfl hf
                        · intro hf
                          exact absurd rfl hf
                        · exact ⟨fun _ => rfl, fun _ => by simp⟩
                        · intro hcon
                          exact GameStatus.noConfusion hcon
                        · intro hcon
                          exact GameStatus.noConfusion hcon
                      · -- more than one team remains: advance
                        next hone =>
                        apply inv_advanceToNextTeam
                        · exact h.teams_len
                        · exact h.teams_nodup
                        · exact hwiff_playing _ rfl rfl
                        · intro _
                          have hrem2 := h.rem_two hplay
                          have hnd_rem : (remainingOf g).Nodup := h.teams_nodup.filter _
                          have hcur_in : currentTeam ∈ remainingOf g := by
                            rw [remainingOf, List.mem_filter]
                            exact ⟨hcur_mem, by simpa using hcur_ne⟩
                          have hsplit :
                              g.teams.filter (fun t =>
                                ¬ (g.eliminatedTeams ++ [currentTeam]).contains t)
                              = (remainingOf g).filter (fun t => t != currentTeam) := by
                            rw [remainingOf, List.filter_filter]
                            apply List.filter_congr
                            intro t _
                            by_cases h1 : t ∈ g.eliminatedTeams <;>
                              by_cases h2 : t = currentTeam <;> simp [h1, h2]
                          have herase : (remainingOf g).erase currentTeam
                              = (remainingOf g).filter (fun t => t != currentTeam) :=
                            hnd_rem.erase_eq_filter currentTeam
                          have hlen_er : ((remainingOf g).erase currentTeam).length
                              = (remainingOf g).length - 1 := List.length_erase_of_mem hcur_in
                          show 2 ≤ (List.filter _ _).length
                          rw [hsplit, ← herase]
                          have hone2 : ¬ ((remainingOf g).erase currentTeam).length = 1 := by
                            rw [herase, ← hsplit]
                            exact hone
                          omega
                    · -- neutral
                      apply inv_advanceToNextTeam
                      · exact h.teams_len
                      · exact h.teams_nodup
                      · exact hwiff_playing _ rfl rfl
                      · intro _
                        exact h.rem_two hplay
                    · -- a team's card
                      next t =>
                      split
                      · -- own team's card
                        split
                        · -- found all: win
                          refine ⟨h.teams_len, h.teams_nodup, h.idx_lt, ?_, ?_, ?_, ?_, ?_⟩
                          · intro hf
                            exact absurd rfl hf
                          · intro hf
                            exact absurd rfl hf
                          · exact ⟨fun _ => rfl, fun _ => by simp⟩
                          · intro hcon
                            exact GameStatus.noConfusion hcon
                          · intro hcon
                            exact GameStatus.noConfusion hcon
                        · split
                          · -- out of guesses: advance
                            apply inv_advanceToNextTeam
                            · exact h.teams_len
                            · exact h.teams_nodup
                            · exact hwiff_playing _ rfl rfl
                            · intro _
                              exact h.rem_two hplay
                          · -- keep guessing
                            next hle =>
                            refine ⟨h.teams_len, h.teams_nodup, h.idx_lt, ?_, ?_, ?_, ?_, ?_⟩
                            · intro _
                              exact h.cur_ok hplay
                            · intro _
                              exact h.rem_two hplay
                            · exact hwiff_playing _ rfl rfl
                            · intro hcon
                              exact GameStatus.noConfusion (hst.symm.trans hcon)
                            · intro _ _
                              rcases hb : GuessCount.le0 (GuessCount.dec g.guessesRemaining) with - | -
                              · rfl
                              · exact absurd hb hle
                      · -- another team's card
                        split
                        · -- the other team wins; still advance
                          apply inv_advanceToNextTeam
                          · exact h.teams_len
                          · exact h.teams_nodup
                          · exact ⟨fun _ => rfl, fun _ => by simp⟩
                          · intro hf
                            exact absurd rfl hf
                        · -- no win: advance
                          apply inv_advanceToNextTeam
                          · exact h.teams_len
                          · exact h.teams_nodup
                          · exact hwiff_playing _ rfl rfl
                          · intro _
                            exact h.rem_two hplay

theorem inv_applyOp (op : Op) {g : Game} (h : Inv g) : Inv (applyOp op g) := by
  cases op with
  | joinRoom pid name => exact inv_joinRoom h pid name
  | leaveRoom pid => exact inv_leaveRoom h pid
  | updateSettings pid patch => exact inv_updateSettings h pid patch
  | selectTeam pid team role => exact inv_selectTeam h pid team role
  | startGame pid => exact inv_startGame h pid
  | giveClue pid word count => exact inv_giveClue h pid word count
  | guessWord pid idx => exact inv_guessWord h pid idx
  | endTurn pid => exact inv_endTurn h pid
  | regenerate ws rand => exact inv_regenerateBoard h ws rand

theorem inv_applyOps : ∀ (ops : List Op) (g : Game), Inv g → Inv (applyOps ops g)
  | [], _, h => h
  | op :: ops, g, h => inv_applyOps ops (applyOp op g) (inv_applyOp op h)

/-- Every reachable session state satisfies the invariant. -/
theorem reachable_inv {g : Game} (h : Reachable g) : Inv g := by
  obtain ⟨g0, ops, ⟨hostId, settings, code, words, rand, now, hinit⟩, happly⟩ := h
  subst hinit
  rw [happly]
  exact inv_applyOps ops _ (inv_createGame hostId settings code words rand now)


/-! ## C5/C7/C10: winner, turn rotation and clue/guess invariants -/

/-! Frame lemmas: which operations can touch `winner`/`status`. -/

theorem joinRoom_frame (g : Game) (pid name : String) :
    (joinRoom g pid name).winner = g.winner ∧ (joinRoom g pid name).status = g.status := by
  unfold joinRoom
  split <;> exact ⟨rfl, rfl⟩

theorem leaveRoom_frame (g : Game) (pid : String) :
    (leaveRoom g pid).winner = g.winner ∧ (leaveRoom g pid).status = g.status := by
  unfold leaveRoom
  split
  · exact ⟨rfl, rfl⟩
  · dsimp only
    split
    · split <;> exact ⟨rfl, rfl⟩
    · exact ⟨rfl, rfl⟩

theorem updateSettings_frame (g : Game) (pid : String) (patch : SettingsPatch) :
    (updateSettings g pid patch).winner = g.winner
      ∧ (updateSettings g pid patch).status = g.status := by
  unfold updateSettings
  split
  · exact ⟨rfl, rfl⟩
  · split
    · exact ⟨rfl, rfl⟩
    · split <;> exact ⟨rfl, rfl⟩

theorem selectTeam_frame (g : Game) (pid : String) (team : Option TeamId)
    (role : Option PlayerRole) :
    (selectTeam g pid team role).winner = g.winner
      ∧ (selectTeam g pid team role).status = g.status := by
  unfold selectTeam
  split
  · exact ⟨rfl, rfl⟩
  · split
    · exact ⟨rfl, rfl⟩
    · split
      · split <;> exact ⟨rfl, rfl⟩
      · exact ⟨rfl, rfl⟩

theorem startGame_finished (g : Game) (pid : String) (hfin : g.status = .finished) :
    startGame g pid = g := by
  unfold startGame
  split
  · rfl
  · split
    · rfl
    · split
      · rfl
      · next hs =>
        have := not_not.mp hs
        rw [hfin] at this
        exact GameStatus.noConfusion this

theorem giveClue_not_playing (g : Game) (pid word : String) (count : Int)
    (h : g.status ≠ .playing) : giveClue g pid word count = g := by
  unfold giveClue
  split
  · rfl
  · next h0 => exact absurd (not_not.mp h0) h

theorem guessWord_not_playing (g : Game) (pid : String) (idx : Int)
    (h : g.status ≠ .playing) : guessWord g pid idx = g := by
  unfold guessWord
  split
  · rfl
  · next h0 => exact absurd (not_not.mp h0) h

theorem endTurn_not_playing (g : Game) (pid : String)
    (h : g.status ≠ .playing) : endTurn g pid = g := by
  unfold endTurn
  split
  · rfl
  · next h0 => exact absurd (not_not.mp h0) h

/-- C5: in every reachable session state, `winner` is set exactly when the
game is finished; and once `winner` is set, no event other than an
explicit board regeneration changes `winner` or `status`. -/
theorem winner_iff_finished :
    (∀ g : Game, Reachable g → (g.winner ≠ none ↔ g.status = .finished)) ∧
    (∀ (g : Game) (op : Op) (w : TeamId), Reachable g → g.winner = some w →
      (∀ ws rand, op ≠ .regenerate ws rand) →
      (applyOp op g).winner = some w ∧ (applyOp op g).status = g.status) := by
  constructor
  · intro g hg
    exact (reachable_inv hg).winner_iff
  · intro g op w hg hw hnr
    have hfin : g.status = .finished := (reachable_inv hg).winner_iff.mp (by simp [hw])
    have hnp : g.status ≠ .playing := by
      rw [hfin]
      intro hcon
      exact GameStatus.noConfusion hcon
    cases op with
    | joinRoom pid name =>
      have hf := joinRoom_frame g pid name
      exact ⟨hf.1.trans hw, hf.2⟩
    | leaveRoom pid =>
      have hf := leaveRoom_frame g pid
      exact ⟨hf.1.trans hw, hf.2⟩
    | updateSettings pid patch =>
      have hf := updateSettings_frame g pid patch
      exact ⟨hf.1.trans hw, hf.2⟩
    | selectTeam pid team role =>
      have hf := selectTeam_frame g pid team role
      exact ⟨hf.1.trans hw, hf.2⟩
    | startGame pid =>
      rw [applyOp, startGame_finished g pid hfin]
      exact ⟨hw, rfl⟩
    | giveClue pid word count =>
      rw [applyOp, giveClue_not_playing g pid word count hnp]
      exact ⟨hw, rfl⟩
    | guessWord pid idx =>
      rw [applyOp, guessWord_not_playing g pid idx hnp]
      exact ⟨hw, rfl⟩
    | endTurn pid =>
      rw [applyOp, endTurn_not_playing g pid hnp]
      exact ⟨hw, rfl⟩
    | regenerate ws rand => exact absurd rfl (hnr ws rand)

/-- The session-creation inputs of the concrete replay used by several
witnesses: a small board, two teams, one word per team, identity shuffle
(the Fisher–Yates oracle `id` swaps every index with itself). -/
def tracePatch : SettingsPatch :=
  { boardSize := some .small, teamCount := some .two, wordsPerTeam := some 1,
    assassinCount := some 1, language := none }

def gTrace0 : Game := createGame "h" tracePatch "ROOM" (List.replicate 16 "w") id 0

/-- A replay up to an active clue: host `h` and blue spymaster `b` join,
operative `o` joins red, the game starts and `h` gives the clue `w`,1. -/
def opsClue : List Op :=
  [ .joinRoom "h" "H", .joinRoom "b" "B",
    .selectTeam "h" (some .red) (some .spymaster),
    .selectTeam "b" (some .blue) (some .spymaster),
    .joinRoom "o" "O",
    .selectTeam "o" (some .red) (some .operative),
    .startGame "h",
    .giveClue "h" "w" 1 ]

/-- The same replay continued: two correct red guesses finish the game
(red's total is `wordsPerTeam + 1 = 2`). -/
def opsFinish : List Op :=
  opsClue ++ [ .guessWord "o" 0, .guessWord "o" 1 ]

theorem gTrace0_initial : Initial gTrace0 :=
  ⟨"h", tracePatch, "ROOM", List.replicate 16 "w", id, 0, rfl⟩

theorem reachable_opsClue : Reachable (applyOps opsClue gTrace0) :=
  ⟨gTrace0, opsClue, gTrace0_initial, rfl⟩

theorem reachable_opsFinish : Reachable (applyOps opsFinish gTrace0) :=
  ⟨gTrace0, opsFinish, gTrace0_initial, rfl⟩

/-- Witness for C5 at a concrete replayed session: the finished state has
a winner, and a further `end_turn` event changes neither winner nor
status. -/
theorem winner_iff_finished_witness :
    ((applyOps opsFinish gTrace0).winner ≠ none
      ↔ (applyOps opsFinish gTrace0).status = .finished) ∧
    (applyOp (.endTurn "o") (applyOps opsFinish gTrace0)).winner = some .red ∧
    (applyOp (.endTurn "o") (applyOps opsFinish gTrace0)).status
      = (applyOps opsFinish gTrace0).status := by
  refine ⟨winner_iff_finished.1 _ reachable_opsFinish, ?_, ?_⟩
  · exact (winner_iff_finished.2 _ (.endTurn "o") .red reachable_opsFinish (by decide)
      (fun ws rand hcon => Op.noConfusion hcon)).1
  · exact (winner_iff_finished.2 _ (.endTurn "o") .red reachable_opsFinish (by decide)
      (fun ws rand hcon => Op.noConfusion hcon)).2

/-- C10 (amended): in every reachable session state that is still
`playing`, an active clue implies `guessesRemaining` is positive
(`Infinity` counts as positive, i.e. `guessesRemaining <= 0` is false);
hence a guess accepted by the `guess_word` handler — which requires
`status == playing` and an active clue but never checks
`guessesRemaining` — always has at least one guess remaining. -/
theorem clue_implies_guesses {g : Game} (hg : Reachable g)
    (hp : g.status = .playing) (hc : g.currentClue ≠ none) :
    g.guessesRemaining.le0 = false :=
  (reachable_inv hg).clue_pos hp hc

/-- Witness for the amended C10: right after the clue in the concrete
replay the state is playing with an active clue, and indeed
`guessesRemaining` (= 2) is positive. -/
theorem clue_implies_guesses_witness :
    (applyOps opsClue gTrace0).guessesRemaining.le0 = false :=
  clue_implies_guesses reachable_opsClue (by decide) (by decide)

/-- Counterexample to C10 as stated: reachable states of a started game
include finished ones, and winning on the last allowed guess leaves
`currentClue` set with `guessesRemaining = 0`. -/
theorem clue_without_guesses_reachable :
    Reachable (applyOps opsFinish gTrace0) ∧
    (applyOps opsFinish gTrace0).currentClue ≠ none ∧
    ¬ (applyOps opsFinish gTrace0).guessesRemaining.le0 = false :=
  ⟨reachable_opsFinish, by decide, by decide⟩

/-- C7: in every reachable session state that is not finished (with more
than one team remaining, as the claim phrases it), `currentTeamIndex`
points at a non-eliminated team; and the turn-advance loop lands on an
index reached in at least one and at most `teams.length` circular steps
from the previous index. -/
theorem currentTeam_not_eliminated :
    (∀ g : Game, Reachable g → g.status ≠ .finished → 1 < (remainingOf g).length →
      g.teams.getD g.currentTeamIndex default ∉ g.eliminatedTeams) ∧
    (∀ (teams elim : List TeamId) (i : Nat), i < teams.length →
      ∃ k, 1 ≤ k ∧ k ≤ teams.length ∧
        findNextIdx teams elim ((i + 1) % teams.length) 1 = (i + k) % teams.length) ∧
    (∀ (teams elim : List TeamId) (i : Nat), i < teams.length →
      (∃ j, j < teams.length ∧ elim.contains (teams.getD j default) = false) →
      elim.contains
        (teams.getD (findNextIdx teams elim ((i + 1) % teams.length) 1) default) = false) := by
  refine ⟨?_, ?_, ?_⟩
  · intro g hg hfin _
    have hco := (reachable_inv hg).cur_ok hfin
    simpa using hco
  · intro teams elim i hi
    have hlen0 : 0 < teams.length := by omega
    obtain ⟨k, hk, heq⟩ := findNextIdx_steps teams elim teams.length 1
      ((i + 1) % teams.length) (by omega) (Nat.mod_lt _ hlen0)
    refine ⟨k + 1, by omega, by omega, ?_⟩
    rw [heq, Nat.mod_add_mod]
    congr 1
    omega
  · intro teams elim i hi hex
    obtain ⟨j, hj, hco⟩ := hex
    have hlen0 : 0 < teams.length := by omega
    have hstart : (i + 1) % teams.length < teams.length := Nat.mod_lt _ hlen0
    apply findNextIdx_not_elim teams elim teams.length 1 _ (by omega) hstart
    by_cases hge : (i + 1) % teams.length ≤ j
    · refine ⟨j - (i + 1) % teams.length, by omega, ?_⟩
      have harith : (i + 1) % teams.length + (j - (i + 1) % teams.length) = j := by omega
      rw [harith, Nat.mod_eq_of_lt hj]
      exact hco
    · refine ⟨j + teams.length - (i + 1) % teams.length, by omega, ?_⟩
      have harith : (i + 1) % teams.length + (j + teams.length - (i + 1) % teams.length)
          = j + teams.length := by omega
      rw [harith, Nat.add_mod_right, Nat.mod_eq_of_lt hj]
      exact hco

/-- Witness for C7: in the concrete replay state with the clue active,
both teams remain, the game is not finished, and the current team (red)
is not eliminated; the advance loop from index 0 over `[red, blue]` with
red eliminated lands on blue in one step. -/
theorem currentTeam_not_eliminated_witness :
    (applyOps opsClue gTrace0).teams.getD (applyOps opsClue gTrace0).currentTeamIndex default
      ∉ (applyOps opsClue gTrace0).eliminatedTeams ∧
    (∃ k, 1 ≤ k ∧ k ≤ 2 ∧ findNextIdx [.red, .blue] [.red] ((0 + 1) % 2) 1 = (0 + k) % 2) ∧
    ([TeamId.red].contains
      (([TeamId.red, TeamId.blue]).getD (findNextIdx [.red, .blue] [.red] ((0 + 1) % 2) 1) default)
      = false) := by
  refine ⟨?_, ?_, ?_⟩
  · exact currentTeam_not_eliminated.1 _ reachable_opsClue (by decide) (by decide)
  · exact currentTeam_not_eliminated.2.1 [.red, .blue] [.red] 0 (by decide)
  · exact currentTeam_not_eliminated.2.2 [.red, .blue] [.red] 0 (by decide) ⟨1, by decide, by decide⟩


/-! ## C6: revealing the assassin -/

/-- C6: a guess that reveals an assassin adds the current team to
`eliminatedTeams`; if exactly one non-eliminated team then remains it
becomes the winner and the game finishes immediately, otherwise the turn
advances to the next team (clue cleared, index stepped by the advance
loop) with winner and status untouched. -/
theorem guessWord_assassin (g : Game) (pid : String) (idx : Int)
    (player : Player) (currentTeam : TeamId)
    (hst : g.status = .playing)
    (hfind : g.players.find? (fun p => p.id == pid) = some player)
    (hget : g.teams.get? g.currentTeamIndex = some currentTeam)
    (hteam : player.team = some currentTeam)
    (hrole : player.role = some .operative)
    (hclue : g.currentClue ≠ none)
    (hlo : 0 ≤ idx) (hhi : idx < (g.words.length : Int))
    (hrev : g.revealed.getD idx.toNat false = false)
    (hcard : g.keyCard.get? idx.toNat = some .assassin) :
    (guessWord g pid idx).eliminatedTeams = g.eliminatedTeams ++ [currentTeam] ∧
    ((g.teams.filter (fun t =>
        ¬ (g.eliminatedTeams ++ [currentTeam]).contains t)).length = 1 →
      (guessWord g pid idx).winner
          = some ((g.teams.filter (fun t =>
              ¬ (g.eliminatedTeams ++ [currentTeam]).contains t)).getD 0 default) ∧
      (guessWord g pid idx).status = .finished) ∧
    ((g.teams.filter (fun t =>
        ¬ (g.eliminatedTeams ++ [currentTeam]).contains t)).length ≠ 1 →
      (guessWord g pid idx).winner = g.winner ∧
      (guessWord g pid idx).status = g.status ∧
      (guessWord g pid idx).currentClue = none ∧
      (guessWord g pid idx).currentTeamIndex
        = findNextIdx g.teams (g.eliminatedTeams ++ [currentTeam])
            ((g.currentTeamIndex + 1) % g.teams.length) 1) := by
  have c1 : ¬ (g.status ≠ .playing) := by simp [hst]
  have c2 : ¬ (player.team ≠ some currentTeam) := by simp [hteam]
  have c3 : ¬ (player.role ≠ some .operative) := by simp [hrole]
  have c5 : ¬ (idx < 0 ∨ (g.words.length : Int) ≤ idx) := by omega
  have c6 : ¬ (g.revealed.getD idx.toNat false = true) := by rw [hrev]; decide
  unfold guessWord
  rw [if_neg c1, hfind]
  dsimp only
  rw [hget]
  dsimp only
  rw [if_neg c2, if_neg c3, if_neg hclue, if_neg c5, if_neg c6, hcard]
  dsimp only
  by_cases hone : (List.filter (fun t =>
      decide (¬ (g.eliminatedTeams ++ [currentTeam]).contains t = true)) g.teams).length = 1
  · rw [if_pos hone]
    exact ⟨rfl, fun _ => ⟨rfl, rfl⟩, fun hne => absurd hone hne⟩
  · rw [if_neg hone]
    exact ⟨rfl, fun h => absurd h hone, fun _ => ⟨rfl, rfl, rfl, rfl⟩⟩

/-- A playing session where the red operative's next guess is the
assassin and only blue would remain. -/
def gAssassin : Game :=
  { code := "DDDDDD", hostId := "h", status := .playing, settings := getDefaultSettings,
    words := ["A", "B", "C", "D"], keyCard := [.assassin, .team .red, .team .blue, .neutral],
    revealed := [false, false, false, false], teams := [.red, .blue], currentTeamIndex := 0,
    currentClue := some ⟨"X", 1⟩, guessesRemaining := .fin 2, guessesThisTurn := 0,
    players := [⟨"o", "Op", some .red, some .operative, false⟩],
    scores := fun _ => ⟨0, 2⟩, eliminatedTeams := [], winner := none, createdAt := 0 }

/-- Witness for C6: the concrete assassin guess eliminates red and ends
the game with blue as winner. -/
theorem guessWord_assassin_witness :
    (guessWord gAssassin "o" 0).eliminatedTeams = [.red] ∧
    (guessWord gAssassin "o" 0).winner = some .blue ∧
    (guessWord gAssassin "o" 0).status = .finished := by
  have h := guessWord_assassin gAssassin "o" 0
    ⟨"o", "Op", some .red, some .operative, false⟩ .red
    rfl (by decide) (by decide) rfl rfl (by decide) (by decide) (by decide) (by decide) (by decide)
  refine ⟨h.1.trans (by decide), ((h.2.1 (by decide)).1).trans (by decide), (h.2.1 (by decide)).2⟩

/-! ## C8: clues and the guess budget -/

/-- C8: a successful `give_clue` with non-negative count stores the
(trimmed, upper-cased) clue word with the count, sets `guessesRemaining`
to `count + 1` (or unbounded for count 0) and resets `guessesThisTurn`;
and a correct own-team guess that neither wins nor exhausts the budget
decrements `guessesRemaining` by one, bumps the team's `found`, and
leaves the clue active — so a count-2 clue followed by two such guesses
runs the budget 3 → 2 → 1. -/
theorem giveClue_spec :
    (∀ (g : Game) (pid word : String) (count : Int) (player : Player) (currentTeam : TeamId),
      g.status = .playing →
      g.players.find? (fun p => p.id == pid) = some player →
      g.teams.get? g.currentTeamIndex = some currentTeam →
      player.team = some currentTeam →
      player.role = some .spymaster →
      g.currentClue = none →
      jsToUpperCase (jsTrim word) ≠ "" →
      0 ≤ count →
      giveClue g pid word count =
        { g with
          currentClue := some { word := jsToUpperCase (jsTrim word), count := count }
          guessesRemaining := if count = 0 then .inf else .fin (count + 1)
          guessesThisTurn := 0 }) ∧
    (∀ (g : Game) (pid : String) (idx : Int) (player : Player) (currentTeam : TeamId),
      g.status = .playing →
      g.players.find? (fun p => p.id == pid) = some player →
      g.teams.get? g.currentTeamIndex = some currentTeam →
      player.team = some currentTeam →
      player.role = some .operative →
      g.currentClue ≠ none →
      0 ≤ idx → idx < (g.words.length : Int) →
      g.revealed.getD idx.toNat false = false →
      g.keyCard.get? idx.toNat = some (.team currentTeam) →
      ¬ (g.scores currentTeam).found + 1 ≥ (g.scores currentTeam).total →
      (g.guessesRemaining.dec).le0 = false →
      guessWord g pid idx =
        { g with
          revealed := g.revealed.set idx.toNat true
          guessesRemaining := g.guessesRemaining.dec
          guessesThisTurn := g.guessesThisTurn + 1
          scores := fun x =>
            if x = currentTeam then
              { found := (g.scores currentTeam).found + 1, total := (g.scores currentTeam).total }
            else g.scores x }) := by
  constructor
  · intro g pid word count player currentTeam hst hfind hget hteam hrole hclue hword hcount
    have c1 : ¬ (g.status ≠ .playing) := by simp [hst]
    have c2 : ¬ (player.team ≠ some currentTeam) := by simp [hteam]
    have c3 : ¬ (player.role ≠ some .spymaster) := by simp [hrole]
    have c4 : ¬ (g.currentClue.isSome = true) := by simp [hclue]
    have c7 : ¬ (jsToUpperCase (jsTrim word) = "" ∨ count < 0) := by
      push_neg
      exact ⟨hword, by omega⟩
    unfold giveClue
    rw [if_neg c1, hfind]
    dsimp only
    rw [hget]
    dsimp only
    rw [if_neg c2, if_neg c3, if_neg c4]
    rw [if_neg c7]
  · intro g pid idx player currentTeam hst hfind hget hteam hrole hclue hlo hhi hrev hcard
      hnowin hleft
    have c1 : ¬ (g.status ≠ .playing) := by simp [hst]
    have c2 : ¬ (player.team ≠ some currentTeam) := by simp [hteam]
    have c3 : ¬ (player.role ≠ some .operative) := by simp [hrole]
    have c5 : ¬ (idx < 0 ∨ (g.words.length : Int) ≤ idx) := by omega
    have c6 : ¬ (g.revealed.getD idx.toNat false = true) := by rw [hrev]; decide
    have c8 : ¬ ((GuessCount.dec g.guessesRemaining).le0 = true) := by rw [hleft]; decide
    unfold guessWord
    rw [if_neg c1, hfind]
    dsimp only
    rw [hget]
    dsimp only
    rw [if_neg c2, if_neg c3, if_neg hclue, if_neg c5, if_neg c6, hcard]
    dsimp only
    rw [if_pos rfl, if_neg hnowin, if_neg c8]

/-- A playing session ready for the claim's example: red spymaster `s`,
red operative `o`, three red cards up front, red needs 5 in total. -/
def gClue : Game :=
  { code := "EEEEEE", hostId := "s", status := .playing, settings := getDefaultSettings,
    words := ["A", "B", "C", "D"],
    keyCard := [.team .red, .team .red, .team .red, .neutral],
    revealed := [false, false, false, false], teams := [.red, .blue], currentTeamIndex := 0,
    currentClue := none, guessesRemaining := .fin 0, guessesThisTurn := 0,
    players := [⟨"s", "Spy", some .red, some .spymaster, true⟩,
                ⟨"o", "Op", some .red, some .operative, false⟩],
    scores := fun _ => ⟨0, 5⟩, eliminatedTeams := [], winner := none, createdAt := 0 }

/-- Witness for C8, replaying the claim's example: clue `ANIMAL`,2 then
two correct red guesses take `guessesRemaining` 3 → 2 → 1 with the clue
still active and red's found count at 2. -/
theorem giveClue_spec_witness :
    (giveClue gClue "s" "animal" 2).currentClue = some ⟨"ANIMAL", 2⟩ ∧
    (giveClue gClue "s" "animal" 2).guessesRemaining = .fin 3 ∧
    (giveClue gClue "s" "animal" 2).guessesThisTurn = 0 ∧
    (guessWord (giveClue gClue "s" "animal" 2) "o" 0).guessesRemaining = .fin 2 ∧
    (guessWord (giveClue gClue "s" "animal" 2) "o" 0).currentClue = some ⟨"ANIMAL", 2⟩ ∧
    (guessWord (guessWord (giveClue gClue "s" "animal" 2) "o" 0) "o" 1).guessesRemaining
      = .fin 1 ∧
    (guessWord (guessWord (giveClue gClue "s" "animal" 2) "o" 0) "o" 1).currentClue
      = some ⟨"ANIMAL", 2⟩ ∧
    ((guessWord (guessWord (giveClue gClue "s" "animal" 2) "o" 0) "o" 1).scores .red).found
      = 2 := by
  have hA := giveClue_spec.1 gClue "s" "animal" 2
    ⟨"s", "Spy", some .red, some .spymaster, true⟩ .red
    rfl (by decide) (by decide) rfl rfl rfl (by decide) (by decide)
  have hB1 := giveClue_spec.2 (giveClue gClue "s" "animal" 2) "o" 0
    ⟨"o", "Op", some .red, some .operative, false⟩ .red
    (by rw [hA]; rfl) (by rw [hA]; decide) (by rw [hA]; decide) rfl rfl
    (by rw [hA]; decide) (by decide) (by rw [hA]; decide) (by rw [hA]; decide)
    (by rw [hA]; decide) (by rw [hA]; decide) (by rw [hA]; decide)
  have hB2 := giveClue_spec.2 (guessWord (giveClue gClue "s" "animal" 2) "o" 0) "o" 1
    ⟨"o", "Op", some .red, some .operative, false⟩ .red
    (by rw [hB1, hA]; rfl) (by rw [hB1, hA]; decide) (by rw [hB1, hA]; decide) rfl rfl
    (by rw [hB1, hA]; decide) (by decide) (by rw [hB1, hA]; decide) (by rw [hB1, hA]; decide)
    (by rw [hB1, hA]; decide) (by rw [hB1, hA]; decide) (by rw [hB1, hA]; decide)
  refine ⟨?_, ?_, ?_, ?_, ?_, ?_, ?_, ?_⟩
  · rw [hA]
    try decide
  · rw [hA]
    try decide
  · rw [hA]
    try decide
  · rw [hB1, hA]
    try decide
  · rw [hB1, hA]
    try decide
  · rw [hB2, hB1, hA]
    try decide
  · rw [hB2, hB1, hA]
    try decide
  · rw [hB2, hB1, hA]
    try decide

/-! ## C9: board regeneration -/

/-- A finished session with every transient field dirty, in particular
`guessesThisTurn = 1` (the same situation as the repository's own
`should reset turn state` test). -/
def gRegen : Game :=
  { code := "FFFFFF", hostId := "h", status := .finished, settings := stdSettings,
    words := List.replicate 25 "w", keyCard := List.replicate 25 CardType.neutral,
    revealed := List.replicate 25 true, teams := [.red, .blue], currentTeamIndex := 1,
    currentClue := some ⟨"X", 3⟩, guessesRemaining := .fin 2, guessesThisTurn := 1,
    players := [⟨"h", "Host", some .red, some .spymaster, true⟩],
    scores := fun _ => ⟨5, 9⟩, eliminatedTeams := [.blue], winner := some .red, createdAt := 0 }

/-- C9: `regenerateBoard` resets the board, turn, score, elimination and
winner state to a fresh lobby while preserving code, host, settings and
roster — but it does **not** reset `guessesThisTurn` (the source omits
it from the overridden fields), contradicting the claim and the
repository's own test, which expects it to become 0: on `gRegen` it
stays 1. -/
theorem regenerateBoard_resets :
    (∀ (g : Game) (ws : List String) (rand : Nat → Nat),
      (regenerateBoard g ws rand).status = .lobby ∧
      (regenerateBoard g ws rand).words = ws ∧
      (regenerateBoard g ws rand).keyCard = generateKeyCard g.settings rand ∧
      (regenerateBoard g ws rand).revealed
        = List.replicate (BOARD_DIMENSIONS g.settings.boardSize ^ 2) false ∧
      (regenerateBoard g ws rand).currentTeamIndex = 0 ∧
      (regenerateBoard g ws rand).currentClue = none ∧
      (regenerateBoard g ws rand).guessesRemaining = .fin 0 ∧
      (regenerateBoard g ws rand).scores = initializeScores g.settings ∧
      (regenerateBoard g ws rand).eliminatedTeams = [] ∧
      (regenerateBoard g ws rand).winner = none ∧
      (regenerateBoard g ws rand).code = g.code ∧
      (regenerateBoard g ws rand).hostId = g.hostId ∧
      (regenerateBoard g ws rand).settings = g.settings ∧
      (regenerateBoard g ws rand).players = g.players ∧
      (regenerateBoard g ws rand).guessesThisTurn = g.guessesThisTurn) ∧
    (regenerateBoard gRegen [] id).guessesThisTurn = 1 := by
  constructor
  · intro g ws rand
    exact ⟨rfl, rfl, rfl, rfl, rfl, rfl, rfl, rfl, rfl, rfl, rfl, rfl, rfl, rfl, rfl⟩
  · rfl

end Codenames
